import Mathlib

/-!
Verification of the streaming chat client in
`src/chat-frontend/ui/src/main.tsx` (`sendMessage`).

The embedding models:
* the JSON values produced by `JSON.parse` (`Json`, `parseJson`) and the
  serializer `JSON.stringify` (`stringify`);
* JavaScript string coercion used by template literals (`jsToString`);
* the per-line event dispatcher (lines 43-65 of `main.tsx`):
  trim, skip empty lines, `JSON.parse` inside `try`, then the
  `evt.type` if-chain (`dispatchEvt`, `handleLine`);
* the frame decoder (lines 33-45): a streaming UTF-8 text decoder
  (`u8Step`/`u8Feed`, a byte-level model of `TextDecoder` with
  `stream: true`) plus the `indexOf`/`slice` line-extraction loop over
  the growing buffer (`splitBuf`), chunk by chunk (`runDec`,
  `decodeStream`);
* a whole send cycle (`runCycle`): the stream either closes normally
  (`StreamEnd.closed`, the `done` break) or the transport fails
  (`StreamEnd.failed`, the outer `catch` at lines 68-69, which appends
  one generic failure message).

Model notes, matching the platform behaviour the source relies on:
* `JSON.parse` is modelled for null/bool/integer/string/array/object
  documents; fractional and exponent number forms and `\u` string
  escapes are not modelled (no claim exercises them) - on those inputs
  the model parser fails where `JSON.parse` would succeed.
* `evt.type` on `null` throws a `TypeError`, caught by the inner
  `try`/`catch`; the model returns the state unchanged, which is the
  same net effect.
* A non-string `evt.stage` fallback stores the raw value in React
  state; the model stores its display string.
-/

namespace Chat

/-- A JavaScript value produced by `JSON.parse`: null, boolean, number
(integers suffice for this protocol), string, array, or object with
insertion-ordered fields. -/
inductive Json where
  | null
  | bool (b : Bool)
  | num (n : Int)
  | str (s : String)
  | arr (xs : List Json)
  | obj (fields : List (String × Json))

/-- Continuation byte test for UTF-8: `0x80 ≤ b < 0xC0`. -/
def isCont (b : Nat) : Bool := 0x80 ≤ b && b < 0xC0

/-- JSON whitespace accepted between tokens by `JSON.parse`. -/
def isJsonWs (c : Char) : Bool := c = ' ' || c = '\t' || c = '\n' || c = '\r'

def skipWs (cs : List Char) : List Char := cs.dropWhile isJsonWs

def isDigit (c : Char) : Bool := '0' ≤ c && c ≤ '9'

def digitVal (c : Char) : Nat := c.toNat - '0'.toNat

/-- Parse a run of decimal digits. -/
def parseNatLit (cs : List Char) : Option (Nat × List Char) :=
  let ds := cs.takeWhile isDigit
  if ds.isEmpty then none
  else some (ds.foldl (fun a c => a * 10 + digitVal c) 0, cs.dropWhile isDigit)

/-- Parse a JSON integer literal (optional minus, digits). -/
def parseNumLit (cs : List Char) : Option (Json × List Char) :=
  match cs with
  | '-' :: r => (parseNatLit r).map (fun p => (Json.num (-(p.1 : Int)), p.2))
  | _ => (parseNatLit cs).map (fun p => (Json.num (p.1 : Int), p.2))

/-- JSON string escape characters (`\u` escapes are not modelled). -/
def escChar : Char → Option Char
  | '"' => some '"'
  | '\\' => some '\\'
  | '/' => some '/'
  | 'b' => some (Char.ofNat 8)
  | 'f' => some (Char.ofNat 12)
  | 'n' => some '\n'
  | 'r' => some '\r'
  | 't' => some '\t'
  | _ => none

/-- Parse the body of a JSON string literal, after the opening quote. -/
def parseStrLit : List Char → Option (List Char × List Char)
  | [] => none
  | '"' :: r => some ([], r)
  | '\\' :: e :: r =>
    match escChar e with
    | none => none
    | some c =>
      match parseStrLit r with
      | none => none
      | some (s, r') => some (c :: s, r')
  | '\\' :: [] => none
  | c :: r =>
    match parseStrLit r with
    | none => none
    | some (s, r') => some (c :: s, r')

/-- Insert a field into an object under construction, with JavaScript
duplicate-key semantics: a repeated key overwrites the value in place,
keeping the first key's position. -/
def objInsert : List (String × Json) → String → Json → List (String × Json)
  | [], k, v => [(k, v)]
  | (k', v') :: rest, k, v =>
    if k' = k then (k', v) :: rest else (k', v') :: objInsert rest k v

mutual

/-- Fueled JSON value parser (the fuel bounds nesting/iteration depth;
`parseJson` supplies ample fuel). -/
def parseVal : Nat → List Char → Option (Json × List Char)
  | 0, _ => none
  | f + 1, cs =>
    match skipWs cs with
    | 'n' :: 'u' :: 'l' :: 'l' :: r => some (Json.null, r)
    | 't' :: 'r' :: 'u' :: 'e' :: r => some (Json.bool true, r)
    | 'f' :: 'a' :: 'l' :: 's' :: 'e' :: r => some (Json.bool false, r)
    | '"' :: r =>
      match parseStrLit r with
      | none => none
      | some (s, r') => some (Json.str (String.mk s), r')
    | '[' :: r => parseArrItems f r
    | '\x7b' :: r => parseObjItems f r
    | cs' => parseNumLit cs'

/-- Parse array items after the opening bracket. -/
def parseArrItems : Nat → List Char → Option (Json × List Char)
  | 0, _ => none
  | f + 1, cs =>
    match skipWs cs with
    | ']' :: r => some (Json.arr [], r)
    | cs' =>
      match parseVal f cs' with
      | none => none
      | some (v, r) => parseArrRest f [v] r

/-- Parse the rest of an array after at least one item (accumulator is
reversed). -/
def parseArrRest : Nat → List Json → List Char → Option (Json × List Char)
  | 0, _, _ => none
  | f + 1, acc, cs =>
    match skipWs cs with
    | ',' :: r =>
      match parseVal f r with
      | none => none
      | some (v, r') => parseArrRest f (v :: acc) r'
    | ']' :: r => some (Json.arr acc.reverse, r)
    | _ => none

/-- Parse object members after the opening brace. -/
def parseObjItems : Nat → List Char → Option (Json × List Char)
  | 0, _ => none
  | f + 1, cs =>
    match skipWs cs with
    | '\x7d' :: r => some (Json.obj [], r)
    | cs' => parseMember f [] cs'

/-- Parse one `"key": value` member and the remainder of the object. -/
def parseMember : Nat → List (String × Json) → List Char → Option (Json × List Char)
  | 0, _, _ => none
  | f + 1, acc, cs =>
    match skipWs cs with
    | '"' :: r =>
      match parseStrLit r with
      | none => none
      | some (k, r') =>
        match skipWs r' with
        | ':' :: r'' =>
          match parseVal f r'' with
          | none => none
          | some (v, r3) =>
            match skipWs r3 with
            | ',' :: r4 => parseMember f (objInsert acc (String.mk k) v) r4
            | '\x7d' :: r4 => some (Json.obj (objInsert acc (String.mk k) v), r4)
            | _ => none
        | _ => none
    | _ => none

end

/-- Model of `JSON.parse` applied to a whole line: parse one value and
require only whitespace to remain; any failure corresponds to the
thrown `SyntaxError` (caught by the dispatcher's `try`/`catch`). -/
def parseJson (cs : List Char) : Option Json :=
  match parseVal (2 * cs.length + 4) cs with
  | some (j, rest) => if (skipWs rest).isEmpty then some j else none
  | none => none

def hexDigit (n : Nat) : Char :=
  if n < 10 then Char.ofNat ('0'.toNat + n) else Char.ofNat ('a'.toNat + n - 10)

/-- JSON string escaping as performed by `JSON.stringify`. -/
def escapeJsonChar (c : Char) : List Char :=
  if c = '"' then ['\\', '"']
  else if c = '\\' then ['\\', '\\']
  else if c = '\n' then ['\\', 'n']
  else if c = '\r' then ['\\', 'r']
  else if c = '\t' then ['\\', 't']
  else if c = Char.ofNat 8 then ['\\', 'b']
  else if c = Char.ofNat 12 then ['\\', 'f']
  else if c.toNat < 32 then ['\\', 'u', '0', '0', hexDigit (c.toNat / 16), hexDigit (c.toNat % 16)]
  else [c]

/-- Quote and escape a string as `JSON.stringify` does. -/
def quoteStr (s : String) : String :=
  String.mk ('"' :: s.toList.foldr (fun c acc => escapeJsonChar c ++ acc) ['"'])

mutual

/-- Model of `JSON.stringify` on values produced by `JSON.parse`
(no spaces, insertion-ordered object keys). -/
def stringify : Json → String
  | Json.null => "null"
  | Json.bool true => "true"
  | Json.bool false => "false"
  | Json.num n => toString n
  | Json.str s => quoteStr s
  | Json.arr xs => "[" ++ stringifyArr xs ++ "]"
  | Json.obj kvs => "\x7b" ++ stringifyObj kvs ++ "\x7d"

def stringifyArr : List Json → String
  | [] => ""
  | [x] => stringify x
  | x :: xs => stringify x ++ "," ++ stringifyArr xs

def stringifyObj : List (String × Json) → String
  | [] => ""
  | [(k, v)] => quoteStr k ++ ":" ++ stringify v
  | (k, v) :: kvs => quoteStr k ++ ":" ++ stringify v ++ "," ++ stringifyObj kvs

end

mutual

/-- JavaScript `String(...)` coercion, as used by template literals in
the dispatcher (`Calling ${evt.name}` and the like). -/
def jsToString : Json → String
  | Json.null => "null"
  | Json.bool true => "true"
  | Json.bool false => "false"
  | Json.num n => toString n
  | Json.str s => s
  | Json.arr xs => jsJoin xs
  | Json.obj _ => "[object Object]"

/-- `Array.prototype.join` with `,`: elements coerced with `String`,
except `null` which joins as the empty string. -/
def jsJoin : List Json → String
  | [] => ""
  | [x] => (match x with | Json.null => "" | j => jsToString j)
  | x :: xs =>
    (match x with | Json.null => "" | j => jsToString j) ++ "," ++ jsJoin xs

end

/-- Template-literal interpolation of a possibly-absent property:
a missing property is `undefined`, which interpolates as the text
`undefined`. -/
def jsUndef : Option Json → String
  | none => "undefined"
  | some j => jsToString j

/-- JavaScript property access `obj[k]` as used on parsed events: a
string-keyed lookup on objects (first matching key), `undefined` on
every other value. (`null` is special-cased by `dispatchEvt` before
any access, since `null.k` throws.) -/
def lookupField : List (String × Json) → String → Option Json
  | [], _ => none
  | (k', v) :: r, k => if k' = k then some v else lookupField r k

def getField : Json → String → Option Json
  | Json.obj kvs, k => lookupField kvs k
  | _, _ => none

/-- `role` of a chat message (`'system' | 'user' | 'assistant'`). -/
inductive Role where
  | system
  | user
  | assistant
deriving DecidableEq, Repr

/-- `ChatMessage` from `main.tsx`. -/
structure ChatMessage where
  role : Role
  content : String
deriving DecidableEq, Repr

/-- The dispatcher-visible React state of one send cycle: the
`messages` transcript and the `current` status projection. -/
structure CycleState where
  messages : List ChatMessage
  current : String
deriving DecidableEq, Repr

/-- Content of the assistant message appended by a `final` event
(line 56): `typeof evt.message === 'string' ? evt.message :
JSON.stringify(evt.message)`, then `messageContent || ''`.
`JSON.stringify(undefined)` is `undefined`, and `undefined || ''` and
`'' || ''` are both `''`; on every other string `s || ''` is `s`. -/
def finalContent : Option Json → String
  | some (Json.str m) => m
  | some j => stringify j
  | none => ""

/-- The `evt.type` if-chain of the dispatcher (lines 48-62 of
`main.tsx`), applied to one successfully parsed event. -/
def dispatchEvt (s : CycleState) (evt : Json) : CycleState :=
  match evt with
  | Json.null => s
  | _ =>
    match getField evt "type" with
    | some (Json.str t) =>
      if t = "stage" then
        match getField evt "stage" with
        | some (Json.str st) =>
          if st = "registry_loaded" then { s with current := "Loaded tool registry" }
          else if st = "model_invoked" then
            { s with current := "Invoking model" ++
                (match getField evt "turn" with
                 | some tv => " (turn " ++ jsToString tv ++ ")"
                 | none => "") }
          else { s with current := st }
        | other => { s with current := jsUndef other }
      else if t = "tool_call" then
        { s with current := "Calling " ++ jsUndef (getField evt "name") }
      else if t = "tool_result" then
        { s with current := jsUndef (getField evt "name") ++ " done" }
      else if t = "final" then
        { messages := s.messages ++ [⟨Role.assistant, finalContent (getField evt "message")⟩],
          current := "Completed" }
      else if t = "error" then
        { messages := s.messages ++ [⟨Role.assistant, "Error: " ++ jsUndef (getField evt "error")⟩],
          current := "Error" }
      else s
    | _ => s

/-- The whitespace removed by JavaScript `String.prototype.trim`
(ASCII whitespace plus NBSP and the BOM). -/
def isJsSpace (c : Char) : Bool :=
  c = ' ' || c = '\t' || c = '\n' || c = '\r' ||
  c = Char.ofNat 11 || c = Char.ofNat 12 || c = Char.ofNat 0xA0 || c = Char.ofNat 0xFEFF

/-- `line.trim()` on the extracted segment. -/
def jsTrim (l : List Char) : List Char :=
  ((l.dropWhile isJsSpace).reverse.dropWhile isJsSpace).reverse

/-- Process one extracted line (lines 43-65): trim, skip if empty,
`JSON.parse` inside `try` (a parse failure is logged and skipped),
then dispatch. -/
def handleLine (s : CycleState) (line : List Char) : CycleState :=
  let l := jsTrim line
  if l.isEmpty then s
  else
    match parseJson l with
    | none => s
    | some evt => dispatchEvt s evt

/-- Process a sequence of extracted lines in arrival order. -/
def runLines (s : CycleState) (lines : List (List Char)) : CycleState :=
  lines.foldl handleLine s

/-- The state after each successive line (used to observe the sequence
of `StatusProjection` values a line sequence produces). -/
def stateTrace (s : CycleState) : List (List Char) → List CycleState
  | [] => []
  | l :: ls =>
    let s' := handleLine s l
    s' :: stateTrace s' ls

/-- The Unicode replacement character U+FFFD emitted for invalid
byte sequences. -/
def repl : Char := Char.ofNat 0xFFFD

/-- Start decoding a fresh UTF-8 sequence at byte `b`. The decoder
state is `(need, acc)`: `need` continuation bytes still expected for
the code point accumulated so far in `acc`; `(0, 0)` is idle. -/
def u8Lead (b : Nat) : (Nat × Nat) × List Char :=
  if b < 0x80 then ((0, 0), [Char.ofNat b])
  else if b < 0xC0 then ((0, 0), [repl])
  else if b < 0xE0 then ((1, b % 32), [])
  else if b < 0xF0 then ((2, b % 16), [])
  else if b < 0xF8 then ((3, b % 8), [])
  else ((0, 0), [repl])

/-- One byte of the streaming UTF-8 decoder (the state machine behind
`TextDecoder` with `stream: true`): idle state starts a sequence; a
pending sequence consumes a continuation byte, emitting the code point
when complete; a missing continuation emits U+FFFD and reprocesses the
byte as a fresh lead. -/
def u8Step (st : Nat × Nat) (b : Nat) : (Nat × Nat) × List Char :=
  if st.1 = 0 then u8Lead b
  else if isCont b then
    let acc := st.2 * 64 + b % 64
    if st.1 = 1 then ((0, 0), [Char.ofNat acc]) else ((st.1 - 1, acc), [])
  else
    let p := u8Lead b
    (p.1, repl :: p.2)

/-- `decoder.decode(chunk, { stream: true })`: run the byte machine
over one chunk, carrying the partial-sequence state across chunks and
returning the decoded text. -/
def u8Feed : (Nat × Nat) → List Nat → (Nat × Nat) × List Char
  | st, [] => (st, [])
  | st, b :: bs =>
    let p := u8Step st b
    let q := u8Feed p.1 bs
    (q.1, p.2 ++ q.2)

/-- The line-extraction loop over the buffer (lines 41-44):
`while ((idx = buffer.indexOf('\n')) >= 0)` take `buffer.slice(0, idx)`
as a line and keep `buffer.slice(idx + 1)`. Returns the fully
terminated segments in order and the unterminated remainder. -/
def splitBuf : List Char → List (List Char) × List Char
  | [] => ([], [])
  | c :: cs =>
    if c = '\n' then ([] :: (splitBuf cs).1, (splitBuf cs).2)
    else
      match (splitBuf cs).1 with
      | [] => ([], c :: (splitBuf cs).2)
      | l :: ls => ((c :: l) :: ls, (splitBuf cs).2)

/-- The complete lines contained in a stretch of decoded text. -/
def textLines (t : List Char) : List (List Char) := (splitBuf t).1

/-- Frame-decoder state: the `TextDecoder`'s internal partial-sequence
state and the `buffer` string of decoded-but-unterminated text. -/
structure DecSt where
  u8 : Nat × Nat
  buf : List Char

/-- Handle one arriving chunk (lines 40-44): decode it in streaming
mode, append to the buffer, extract every fully terminated line. -/
def feedChunk (st : DecSt) (chunk : List Nat) : DecSt × List (List Char) :=
  let p := u8Feed st.u8 chunk
  let q := splitBuf (st.buf ++ p.2)
  (⟨p.1, q.2⟩, q.1)

/-- Run the frame decoder over successive chunks, emitting lines in
arrival order. -/
def runDec : DecSt → List (List Nat) → List (List Char) × DecSt
  | st, [] => ([], st)
  | st, c :: cs =>
    let p := feedChunk st c
    let q := runDec p.1 cs
    (p.2 ++ q.1, q.2)

/-- All lines the frame decoder produces for a chunked byte stream.
On stream end (`done`) the final state - pending bytes and any
unterminated buffer remainder - is discarded. -/
def decodeStream (chunks : List (List Nat)) : List (List Char) :=
  (runDec ⟨(0, 0), []⟩ chunks).1

/-- Well-formed (valid UTF-8) byte streams: the shape check used by
the chunk-invariance claim. -/
def validUtf8 : List Nat → Bool
  | [] => true
  | b :: bs =>
    if b < 0x80 then validUtf8 bs
    else if b < 0xC2 then false
    else if b < 0xE0 then
      match bs with
      | c :: r => isCont c && validUtf8 r
      | _ => false
    else if b < 0xF0 then
      match bs with
      | c :: d :: r => isCont c && isCont d && validUtf8 r
      | _ => false
    else if b < 0xF5 then
      match bs with
      | c :: d :: e :: r => isCont c && isCont d && isCont e && validUtf8 r
      | _ => false
    else false

/-- Bytes of an ASCII string (for concrete protocol streams). -/
def asciiBytes (s : String) : List Nat := s.toList.map Char.toNat

/-- How a cycle's stream ends: a normal close (`done` then `break`),
or a transport failure - `fetch`/`read` rejecting or a missing body -
carrying its description, which reaches the outer `catch`. -/
inductive StreamEnd where
  | closed
  | failed (msg : String)

/-- The outer `catch` (lines 68-69): append one generic failure
assistant message built from the failure description. The status
projection is not changed there. -/
def transportCatch (s : CycleState) (m : String) : CycleState :=
  { s with messages := s.messages ++ [⟨Role.assistant, "Error: " ++ m⟩] }

/-- One whole send cycle from the first chunk on: decode and dispatch
every line of every delivered chunk, then apply the transport-failure
handler if the stream ended in failure. -/
def runCycle (init : CycleState) (chunks : List (List Nat)) (e : StreamEnd) : CycleState :=
  let s := runLines init (decodeStream chunks)
  match e with
  | StreamEnd.closed => s
  | StreamEnd.failed m => transportCatch s m

/-- Number of transcript appends contributed by the way the stream
ends. -/
def endAppends : StreamEnd → Nat
  | StreamEnd.closed => 0
  | StreamEnd.failed _ => 1

/-- A parsed event is terminal iff the dispatcher appends to the
transcript for it: its `type` field is the string `final` or
`error`. -/
def isTerminalEvt (evt : Json) : Bool :=
  match getField evt "type" with
  | some (Json.str t) => t = "final" || t = "error"
  | _ => false

/-- A raw line is terminal iff processing it appends to the
transcript. -/
def isTerminalLine (line : List Char) : Bool :=
  let l := jsTrim line
  if l.isEmpty then false
  else
    match parseJson l with
    | none => false
    | some evt => isTerminalEvt evt

/-! Dispatcher lemmas: a non-terminal event leaves the transcript
unchanged, a terminal event appends exactly one message. -/

theorem dispatch_messages_nonterm (s : CycleState) (evt : Json)
    (h : isTerminalEvt evt = false) : (dispatchEvt s evt).messages = s.messages := by
  cases evt with
  | null => rfl
  | bool b => rfl
  | num n => rfl
  | str t => rfl
  | arr xs => rfl
  | obj kvs =>
    unfold isTerminalEvt getField at h
    unfold dispatchEvt getField
    rcases hf : lookupField kvs "type" with _ | v
    · simp [hf]
    · rcases v with _ | b | n | t | xs | kvs2 <;> simp [hf] at h ⊢
      obtain ⟨h1, h2⟩ := h
      by_cases hs : t = "stage"
      · rw [if_pos hs]
        split
        · split_ifs <;> rfl
        · rfl
      · by_cases hc : t = "tool_call"
        · rw [if_neg hs, if_pos hc]
        · by_cases hr : t = "tool_result"
          · rw [if_neg hs, if_neg hc, if_pos hr]
          · rw [if_neg hs, if_neg hc, if_neg hr, if_neg h1, if_neg h2]

theorem dispatch_messages_term (s : CycleState) (evt : Json)
    (h : isTerminalEvt evt = true) :
    ∃ m, (dispatchEvt s evt).messages = s.messages ++ [m] := by
  cases evt with
  | null => simp [isTerminalEvt, getField] at h
  | bool b => simp [isTerminalEvt, getField] at h
  | num n => simp [isTerminalEvt, getField] at h
  | str t => simp [isTerminalEvt, getField] at h
  | arr xs => simp [isTerminalEvt, getField] at h
  | obj kvs =>
    unfold isTerminalEvt getField at h
    unfold dispatchEvt getField
    rcases hf : lookupField kvs "type" with _ | v
    · simp [hf] at h
    · rcases v with _ | b | n | t | xs | kvs2 <;> simp [hf] at h ⊢
      rcases h with h | h <;> subst h <;> simp

/-! Line-level lemmas. -/

theorem handleLine_nonterm (s : CycleState) (l : List Char)
    (h : isTerminalLine l = false) : (handleLine s l).messages = s.messages := by
  unfold isTerminalLine at h
  unfold handleLine
  by_cases he : (jsTrim l).isEmpty
  · simp [he]
  · simp only [he, if_false, Bool.false_eq_true] at h ⊢
    rcases hp : parseJson (jsTrim l) with _ | evt
    · simp [hp]
    · simp only [hp] at h ⊢
      exact dispatch_messages_nonterm s evt h

theorem handleLine_term (s : CycleState) (l : List Char)
    (h : isTerminalLine l = true) :
    ∃ m, (handleLine s l).messages = s.messages ++ [m] := by
  unfold isTerminalLine at h
  unfold handleLine
  by_cases he : (jsTrim l).isEmpty
  · simp [he] at h
  · simp only [he, if_false, Bool.false_eq_true] at h ⊢
    rcases hp : parseJson (jsTrim l) with _ | evt
    · simp [hp] at h
    · simp only [hp] at h ⊢
      exact dispatch_messages_term s evt h

theorem handleLine_len (s : CycleState) (l : List Char) :
    (handleLine s l).messages.length =
      s.messages.length + (if isTerminalLine l then 1 else 0) := by
  by_cases h : isTerminalLine l
  · obtain ⟨m, hm⟩ := handleLine_term s l h
    simp [hm, h]
  · rw [handleLine_nonterm s l (by simpa using h)]
    simp [h]

theorem runLines_cons (s : CycleState) (l : List Char) (ls : List (List Char)) :
    runLines s (l :: ls) = runLines (handleLine s l) ls := rfl

theorem runLines_len (ls : List (List Char)) : ∀ s : CycleState,
    (runLines s ls).messages.length =
      s.messages.length + List.countP isTerminalLine ls := by
  induction ls with
  | nil => intro s; simp [runLines]
  | cons l ls ih =>
    intro s
    rw [runLines_cons, ih, handleLine_len, List.countP_cons]
    by_cases h : isTerminalLine l
    · simp [h]
      omega
    · simp [h]

theorem runLines_no_term (ls : List (List Char))
    (h : List.countP isTerminalLine ls = 0) : ∀ s : CycleState,
    (runLines s ls).messages = s.messages := by
  induction ls with
  | nil => intro s; rfl
  | cons l ls ih =>
    intro s
    rw [List.countP_cons] at h
    have h1 : isTerminalLine l = false := by
      by_cases hh : isTerminalLine l
      · simp [hh] at h
      · simpa using hh
    have h2 : List.countP isTerminalLine ls = 0 := by
      rw [h1] at h; simpa using h
    rw [runLines_cons, ih h2, handleLine_nonterm s l h1]

theorem runLines_prefix (ls : List (List Char)) : ∀ s : CycleState,
    s.messages <+: (runLines s ls).messages := by
  induction ls with
  | nil => intro s; exact List.prefix_refl _
  | cons l ls ih =>
    intro s
    have h1 : s.messages <+: (handleLine s l).messages := by
      by_cases h : isTerminalLine l
      · obtain ⟨m, hm⟩ := handleLine_term s l h
        rw [hm]; exact List.prefix_append _ _
      · rw [handleLine_nonterm s l (by simpa using h)]
    exact h1.trans (ih _)

theorem runCycle_len (init : CycleState) (chunks : List (List Nat)) (e : StreamEnd) :
    (runCycle init chunks e).messages.length =
      init.messages.length + List.countP isTerminalLine (decodeStream chunks)
        + endAppends e := by
  cases e with
  | closed => simp [runCycle, endAppends, runLines_len]
  | failed m =>
    simp [runCycle, endAppends, transportCatch, runLines_len]

/-! Frame-decoder lemmas: the streaming text decoder and the
line-splitting loop both behave as stream homomorphisms, so chunk
boundaries cannot change the decoded line sequence. -/

theorem u8Feed_append (st : Nat × Nat) (a b : List Nat) :
    u8Feed st (a ++ b) =
      ((u8Feed (u8Feed st a).1 b).1, (u8Feed st a).2 ++ (u8Feed (u8Feed st a).1 b).2) := by
  induction a generalizing st with
  | nil => simp [u8Feed]
  | cons x a ih => simp [u8Feed, ih, List.append_assoc]

theorem splitBuf_cons (c : Char) (cs : List Char) :
    splitBuf (c :: cs) =
      if c = '\n' then ([] :: (splitBuf cs).1, (splitBuf cs).2)
      else
        match (splitBuf cs).1 with
        | [] => ([], c :: (splitBuf cs).2)
        | l :: ls => ((c :: l) :: ls, (splitBuf cs).2) := rfl

theorem splitBuf_append (a b : List Char) :
    splitBuf (a ++ b) =
      ((splitBuf a).1 ++ (splitBuf ((splitBuf a).2 ++ b)).1,
       (splitBuf ((splitBuf a).2 ++ b)).2) := by
  induction a with
  | nil => simp [splitBuf]
  | cons c a ih =>
    by_cases hc : c = '\n'
    · simp [List.cons_append, splitBuf_cons, hc, ih]
    · rcases h1 : (splitBuf a).1 with _ | ⟨l, ls⟩
      · rcases h2 : (splitBuf ((splitBuf a).2 ++ b)).1 with _ | ⟨l2, ls2⟩ <;>
          simp [List.cons_append, splitBuf_cons, hc, ih, h1, h2]
      · simp [List.cons_append, splitBuf_cons, hc, ih, h1]

theorem splitBuf_snd_no_nl (t : List Char) : ∀ c ∈ (splitBuf t).2, ¬c = '\n' := by
  induction t with
  | nil => simp [splitBuf]
  | cons d t ih =>
    by_cases hd : d = '\n'
    · subst hd
      simpa [splitBuf] using ih
    · rcases h1 : (splitBuf t).1 with _ | ⟨l, ls⟩ <;> simp [splitBuf_cons, hd, h1]
      · exact ih
      · exact ih

theorem splitBuf_no_nl (t : List Char) (h : ∀ c ∈ t, ¬c = '\n') :
    splitBuf t = ([], t) := by
  induction t with
  | nil => rfl
  | cons d t ih =>
    have hd : ¬d = '\n' := h d (by simp)
    have ht : splitBuf t = ([], t) := ih (fun c hc => h c (by simp [hc]))
    simp [splitBuf, hd, ht]

theorem runDec_norm (cs : List (List Nat)) : ∀ st : DecSt,
    splitBuf st.buf = ([], st.buf) →
    runDec st cs =
      ((splitBuf (st.buf ++ (u8Feed st.u8 cs.flatten).2)).1,
       ⟨(u8Feed st.u8 cs.flatten).1, (splitBuf (st.buf ++ (u8Feed st.u8 cs.flatten).2)).2⟩) := by
  induction cs with
  | nil =>
    intro st h
    simp [runDec, u8Feed, List.flatten, h]
  | cons c cs ih =>
    intro st h
    have hstep : runDec st (c :: cs) =
        ((feedChunk st c).2 ++ (runDec (feedChunk st c).1 cs).1,
         (runDec (feedChunk st c).1 cs).2) := rfl
    have hfc : feedChunk st c =
        (⟨(u8Feed st.u8 c).1, (splitBuf (st.buf ++ (u8Feed st.u8 c).2)).2⟩,
         (splitBuf (st.buf ++ (u8Feed st.u8 c).2)).1) := rfl
    have hinv : splitBuf (splitBuf (st.buf ++ (u8Feed st.u8 c).2)).2 =
        ([], (splitBuf (st.buf ++ (u8Feed st.u8 c).2)).2) :=
      splitBuf_no_nl _ (splitBuf_snd_no_nl _)
    have hrec := ih ⟨(u8Feed st.u8 c).1, (splitBuf (st.buf ++ (u8Feed st.u8 c).2)).2⟩ hinv
    rw [hstep, hfc, hrec]
    have hjoin : (c :: cs).flatten = c ++ cs.flatten := rfl
    rw [hjoin, u8Feed_append st.u8 c cs.flatten]
    have hsb := splitBuf_append (st.buf ++ (u8Feed st.u8 c).2)
      (u8Feed (u8Feed st.u8 c).1 cs.flatten).2
    rw [← List.append_assoc, hsb]

/-- Every chunked run of the frame decoder equals one-shot decoding of
the concatenated bytes followed by one-shot line extraction. -/
theorem decodeStream_norm (chunks : List (List Nat)) :
    decodeStream chunks = (splitBuf (u8Feed (0, 0) chunks.flatten).2).1 := by
  have h := runDec_norm chunks ⟨(0, 0), []⟩ rfl
  simp only [decodeStream, h]
  simp

/-! The claims. -/

/-- C1 counterexample: the dispatcher has no guard against a second
terminal event - a stream carrying two `final` lines produces two
terminal transcript appends in one cycle, so the append count is not
at most 1 regardless of how many terminal events appear. -/
theorem c1_counterexample :
    List.countP isTerminalLine (decodeStream
        [asciiBytes "\x7b\"type\":\"final\",\"message\":\"hi\"\x7d\n\x7b\"type\":\"final\",\"message\":\"hi\"\x7d\n"]) = 2 ∧
    ¬((runCycle (CycleState.mk [] "Queued")
        [asciiBytes "\x7b\"type\":\"final\",\"message\":\"hi\"\x7d\n\x7b\"type\":\"final\",\"message\":\"hi\"\x7d\n"]
        StreamEnd.closed).messages.length ≤
      (CycleState.mk [] "Queued").messages.length + 1) := by
  decide

/-- C1 (amended): in every send cycle the number of terminal
transcript appends equals the number of terminal (`final`/`error`)
events in the decoded line sequence plus one for a transport failure;
it is at most 1 whenever that sum is at most 1 - in particular for
every protocol-conformant stream, which carries at most one terminal
event. -/
theorem c1_amended (init : CycleState) (chunks : List (List Nat)) (e : StreamEnd)
    (h : List.countP isTerminalLine (decodeStream chunks) + endAppends e ≤ 1) :
    (runCycle init chunks e).messages.length ≤ init.messages.length + 1 := by
  rw [runCycle_len]
  omega

/-- C1 witness: a cycle with a single `final` event and a normal close
satisfies the amended bound. -/
theorem c1_witness :
    List.countP isTerminalLine (decodeStream
        [asciiBytes "\x7b\"type\":\"final\",\"message\":\"hi\"\x7d\n"]) +
      endAppends StreamEnd.closed ≤ 1 ∧
    (runCycle (CycleState.mk [] "Queued")
        [asciiBytes "\x7b\"type\":\"final\",\"message\":\"hi\"\x7d\n"]
        StreamEnd.closed).messages.length ≤
      (CycleState.mk [] "Queued").messages.length + 1 :=
  ⟨by decide, c1_amended _ _ _ (by decide)⟩

/-- C2: for every well-formed byte stream and every splitting of it
into chunks at arbitrary byte offsets (including mid-multibyte
character and mid-line), the frame decoder produces the same line
sequence as decoding the whole stream as a single chunk. -/
theorem c2_chunk_invariance (chunks : List (List Nat))
    (_h : validUtf8 chunks.flatten = true) :
    decodeStream chunks = decodeStream [chunks.flatten] := by
  rw [decodeStream_norm, decodeStream_norm]
  simp

/-- C2 witness: the two-byte character `é` split across a chunk
boundary, followed by a newline and an ASCII chunk. -/
theorem c2_witness :
    validUtf8 ([[0xC3], [0xA9, 0x0A], [0x61]].flatten) = true ∧
    decodeStream [[0xC3], [0xA9, 0x0A], [0x61]] =
      decodeStream [[[0xC3], [0xA9, 0x0A], [0x61]].flatten] :=
  ⟨by decide, c2_chunk_invariance _ (by decide)⟩

/-- C3 counterexample: when the stream closes normally with no
terminal event received, the code appends nothing - the transcript
does not gain a generic failure message (the outer `catch` only runs
on a thrown transport error, and a clean `done` close throws
nothing). -/
theorem c3_counterexample :
    List.countP isTerminalLine (decodeStream
        [asciiBytes "\x7b\"type\":\"stage\",\"stage\":\"registry_loaded\"\x7d\n"]) = 0 ∧
    ¬((runCycle (CycleState.mk [] "Queued")
        [asciiBytes "\x7b\"type\":\"stage\",\"stage\":\"registry_loaded\"\x7d\n"]
        StreamEnd.closed).messages.length =
      (CycleState.mk [] "Queued").messages.length + 1) := by
  decide

/-- C3 (amended): with no terminal event in the stream, a transport
failure appends exactly one generic failure assistant message, while a
normal close appends nothing (and the code exposes no `cancel`
operation at all, so no duplicate can be added after closure). -/
theorem c3_amended (init : CycleState) (chunks : List (List Nat)) (m : String)
    (h : List.countP isTerminalLine (decodeStream chunks) = 0) :
    (runCycle init chunks (StreamEnd.failed m)).messages =
      init.messages ++ [⟨Role.assistant, "Error: " ++ m⟩] ∧
    (runCycle init chunks StreamEnd.closed).messages = init.messages := by
  constructor
  · show (transportCatch (runLines init (decodeStream chunks)) m).messages = _
    simp [transportCatch, runLines_no_term _ h]
  · exact runLines_no_term _ h init

/-- C3 witness: a status-only stream followed by a transport failure
yields exactly one generic failure message. -/
theorem c3_witness :
    List.countP isTerminalLine (decodeStream
        [asciiBytes "\x7b\"type\":\"stage\",\"stage\":\"registry_loaded\"\x7d\n"]) = 0 ∧
    (runCycle (CycleState.mk [] "Queued")
        [asciiBytes "\x7b\"type\":\"stage\",\"stage\":\"registry_loaded\"\x7d\n"]
        (StreamEnd.failed "network error")).messages =
      (CycleState.mk [] "Queued").messages ++ [⟨Role.assistant, "Error: network error"⟩] :=
  ⟨by decide, (c3_amended _ _ _ (by decide)).1⟩

/-- C4: a line that is not valid JSON is logged and skipped - it
changes neither the transcript nor the status projection and does not
halt processing, so the cycle's effect is exactly that of the
remaining lines (in particular of a following valid `final` line). -/
theorem c4_malformed_line_skipped (s : CycleState) (l₁ l₂ : List Char)
    (h : parseJson (jsTrim l₁) = none) :
    runLines s [l₁, l₂] = runLines s [l₂] := by
  have h1 : handleLine s l₁ = s := by
    unfold handleLine
    by_cases he : (jsTrim l₁).isEmpty
    · simp [he]
    · simp [he, h]
  rw [runLines_cons, h1]

/-- C4 witness: a malformed line followed by a valid `final` line
yields exactly the `final` event's effect. -/
theorem c4_witness :
    parseJson (jsTrim "\x7binvalid".toList) = none ∧
    runLines (CycleState.mk [] "Queued")
        ["\x7binvalid".toList,
         "\x7b\"type\":\"final\",\"message\":\"Paris is the capital.\"\x7d".toList] =
      runLines (CycleState.mk [] "Queued")
        ["\x7b\"type\":\"final\",\"message\":\"Paris is the capital.\"\x7d".toList] :=
  ⟨rfl, c4_malformed_line_skipped _ _ _ rfl⟩

/-- C5: the four-line scenario produces the status sequence
"Loaded tool registry", "Calling search", "search done", "Completed"
in that order and appends exactly one assistant message with content
"Paris is the capital.". -/
theorem c5_scenario (init : CycleState) :
    (stateTrace init
        ["\x7b\"type\":\"stage\",\"stage\":\"registry_loaded\"\x7d".toList,
         "\x7b\"type\":\"tool_call\",\"name\":\"search\"\x7d".toList,
         "\x7b\"type\":\"tool_result\",\"name\":\"search\"\x7d".toList,
         "\x7b\"type\":\"final\",\"message\":\"Paris is the capital.\"\x7d".toList]).map
        CycleState.current =
      ["Loaded tool registry", "Calling search", "search done", "Completed"] ∧
    (runLines init
        ["\x7b\"type\":\"stage\",\"stage\":\"registry_loaded\"\x7d".toList,
         "\x7b\"type\":\"tool_call\",\"name\":\"search\"\x7d".toList,
         "\x7b\"type\":\"tool_result\",\"name\":\"search\"\x7d".toList,
         "\x7b\"type\":\"final\",\"message\":\"Paris is the capital.\"\x7d".toList]).messages =
      init.messages ++ [⟨Role.assistant, "Paris is the capital."⟩] :=
  ⟨rfl, rfl⟩

/-- C6: a `final` event whose `message` field is a structured object
appends a transcript message whose content is the canonical JSON
serialization of that object, and completes the status projection. -/
theorem c6_final_object_serialized (s : CycleState) (evt : Json)
    (kvs : List (String × Json))
    (h1 : getField evt "type" = some (Json.str "final"))
    (h2 : getField evt "message" = some (Json.obj kvs)) :
    (dispatchEvt s evt).messages =
      s.messages ++ [⟨Role.assistant, stringify (Json.obj kvs)⟩] ∧
    (dispatchEvt s evt).current = "Completed" := by
  cases evt with
  | null => simp [getField] at h1
  | bool b => simp [getField] at h1
  | num n => simp [getField] at h1
  | str t => simp [getField] at h1
  | arr xs => simp [getField] at h1
  | obj kvs2 =>
    refine ⟨?_, ?_⟩ <;> simp [dispatchEvt, h1, h2, finalContent]

/-- C6 witness: `final` carrying the object `(answer, 42)` appends its
serialized form. -/
theorem c6_witness :
    getField (Json.obj [("type", Json.str "final"), ("message", Json.obj [("answer", Json.num 42)])])
        "type" = some (Json.str "final") ∧
    (dispatchEvt (CycleState.mk [] "Queued")
        (Json.obj [("type", Json.str "final"), ("message", Json.obj [("answer", Json.num 42)])])).messages =
      (CycleState.mk [] "Queued").messages ++
        [⟨Role.assistant, stringify (Json.obj [("answer", Json.num 42)])⟩] :=
  ⟨rfl, (c6_final_object_serialized (CycleState.mk [] "Queued")
      (Json.obj [("type", Json.str "final"), ("message", Json.obj [("answer", Json.num 42)])])
      [("answer", Json.num 42)] rfl rfl).1⟩

/-- C7: the single line with an `error` event and text "rate limited"
appends exactly one assistant message "Error: rate limited" and sets
the status projection to "Error". -/
theorem c7_error_scenario (init : CycleState) :
    runLines init ["\x7b\"type\":\"error\",\"error\":\"rate limited\"\x7d".toList] =
      ⟨init.messages ++ [⟨Role.assistant, "Error: rate limited"⟩], "Error"⟩ :=
  rfl

/-- C8: status overwrite is last-write-wins - after
`stage(model_invoked, turn=1)` then `stage(model_invoked, turn=2)` the
state is exactly the state produced by the second event alone, and the
final status reflects only turn 2. -/
theorem c8_status_last_write_wins (init : CycleState) :
    runLines init
        ["\x7b\"type\":\"stage\",\"stage\":\"model_invoked\",\"turn\":1\x7d".toList,
         "\x7b\"type\":\"stage\",\"stage\":\"model_invoked\",\"turn\":2\x7d".toList] =
      runLines init
        ["\x7b\"type\":\"stage\",\"stage\":\"model_invoked\",\"turn\":2\x7d".toList] ∧
    (runLines init
        ["\x7b\"type\":\"stage\",\"stage\":\"model_invoked\",\"turn\":1\x7d".toList,
         "\x7b\"type\":\"stage\",\"stage\":\"model_invoked\",\"turn\":2\x7d".toList]).current =
      "Invoking model (turn 2)" :=
  ⟨rfl, rfl⟩

/-- C9: an unterminated remainder at stream end never becomes a line
and produces no event or state change - appending newline-free
trailing text to the stream leaves the decoded line sequence, and
hence every processing result, unchanged. -/
theorem c9_remainder_discarded (t u : List Char) (h : ∀ c ∈ u, ¬c = '\n') :
    textLines (t ++ u) = textLines t ∧
    ∀ init : CycleState, runLines init (textLines (t ++ u)) = runLines init (textLines t) := by
  have h1 : ∀ c ∈ (splitBuf t).2 ++ u, ¬c = '\n' := by
    intro c hc
    rcases List.mem_append.mp hc with hc | hc
    · exact splitBuf_snd_no_nl t c hc
    · exact h c hc
  have h2 : splitBuf ((splitBuf t).2 ++ u) = ([], (splitBuf t).2 ++ u) :=
    splitBuf_no_nl _ h1
  have h3 : textLines (t ++ u) = textLines t := by
    unfold textLines
    rw [splitBuf_append, h2]
    simp
  exact ⟨h3, fun init => by rw [h3]⟩

/-- C9 witness: a terminated `error` line followed by an unterminated
partial line - the partial line is discarded. -/
theorem c9_witness :
    (∀ c ∈ "\x7b\"type\":\"final\"".toList, ¬c = '\n') ∧
    textLines ("\x7b\"type\":\"error\",\"error\":\"x\"\x7d\n".toList ++
        "\x7b\"type\":\"final\"".toList) =
      textLines "\x7b\"type\":\"error\",\"error\":\"x\"\x7d\n".toList :=
  ⟨by decide, (c9_remainder_discarded _ _ (by decide)).1⟩

/-- C10: the transcript is append-only - each line's processing either
leaves the message list unchanged or appends exactly one message at
its end, the transport-failure handler appends exactly one message,
and over a whole cycle the initial transcript is a prefix of the final
one (no message is modified, reordered or removed). -/
theorem c10_transcript_append_only :
    (∀ (s : CycleState) (l : List Char),
        (handleLine s l).messages = s.messages ∨
        ∃ m, (handleLine s l).messages = s.messages ++ [m]) ∧
    (∀ (s : CycleState) (m : String),
        (transportCatch s m).messages = s.messages ++ [⟨Role.assistant, "Error: " ++ m⟩]) ∧
    (∀ (init : CycleState) (chunks : List (List Nat)) (e : StreamEnd),
        init.messages <+: (runCycle init chunks e).messages) := by
  refine ⟨?_, ?_, ?_⟩
  · intro s l
    by_cases h : isTerminalLine l
    · exact Or.inr (handleLine_term s l h)
    · exact Or.inl (handleLine_nonterm s l (by simpa using h))
  · intro s m
    rfl
  · intro init chunks e
    cases e with
    | closed => exact runLines_prefix _ init
    | failed m =>
      have h1 := runLines_prefix (decodeStream chunks) init
      have h2 : (runLines init (decodeStream chunks)).messages <+:
          (transportCatch (runLines init (decodeStream chunks)) m).messages :=
        List.prefix_append _ _
      exact h1.trans h2

end Chat
